import Mathlib

/-!
Verification of `opendocument_security.py` (OpenDocument macro / event-listener
scanner).  The Python source is shallowly embedded: strings are `String` /
`List Char`, parsed XML trees are the inductive `XML`, the zip archive is an
association list of member names to member data, and log output is a list of
`LogMsg` values.  Fallible Python operations (uncaught exceptions) are
modelled with `Except String`.
-/

namespace ODSec

/-- A parsed XML element tree, as produced by `xml.etree.ElementTree`:
a tag (already namespace-expanded to `\x7buri\x7dlocal` form by the parser),
an attribute dictionary, and the list of child elements. -/
inductive XML where
  | elem (tag : String) (attrib : List (String × String)) (children : List XML)
deriving Repr

/-- The element's tag string. -/
def XML.tag : XML → String
  | .elem t _ _ => t

/-- The element's attribute dictionary (as an association list). -/
def XML.attrib : XML → List (String × String)
  | .elem _ a _ => a

/-- The element's direct children. -/
def XML.children : XML → List XML
  | .elem _ _ c => c

/-- `Element.findall(element)` with a plain tag path: the direct children
whose tag equals the path. -/
def findall (x : XML) (element : String) : List XML :=
  x.children.filter (fun c => c.tag == element)

/-- Python dict lookup `x.attrib[k]`, `none` when the key is absent
(Python raises `KeyError` there; callers model that). -/
def lookupAttr (x : XML) (k : String) : Option String :=
  (x.attrib.find? (fun p => p.fst == k)).map (fun p => p.snd)

mutual

/-- `find_rec(node, element, result)` from the source: for each child `item`
of `node`, append `item.findall(element)` to the accumulator, then recurse
into `item`. -/
def find_rec (node : XML) (element : String) (result : List XML) : List XML :=
  match node with
  | .elem _ _ children => find_rec_list children element result

/-- The loop `for item in node: ...` of `find_rec`, over a list of children. -/
def find_rec_list (l : List XML) (element : String) (result : List XML) : List XML :=
  match l with
  | [] => result
  | item :: rest => find_rec_list rest element (find_rec item element (result ++ findall item element))

end

mutual

/-- All proper descendants of an element in document (pre-)order:
each child followed by that child's descendants. -/
def descendants (x : XML) : List XML :=
  match x with
  | .elem _ _ children => descendantsList children

/-- Descendant listing for a list of sibling elements. -/
def descendantsList (l : List XML) : List XML :=
  match l with
  | [] => []
  | c :: rest => c :: (descendants c ++ descendantsList rest)

end

/-- The descendants of each element of a list, concatenated (so, relative to
a node whose children the list is: all descendants at depth ≥ 2). -/
def deepOfList (l : List XML) : List XML :=
  l.flatMap descendants

/-- All descendants of `x` at depth ≥ 2 (children of children and deeper). -/
def deepDescendants (x : XML) : List XML :=
  deepOfList x.children

/-- Python `str.split(sep)` with an explicit one-character separator:
keeps empty fields, `"".split(sep) == [""]`. -/
def pySplit (sep : Char) : List Char → List (List Char)
  | [] => [[]]
  | x :: xs =>
    if x = sep then [] :: pySplit sep xs
    else
      match pySplit sep xs with
      | [] => [[x]]
      | s :: rest => (x :: s) :: rest

/-- Python substring test `needle in hay` (for `'Basic/' in filepath` etc.). -/
def containsSub (needle : List Char) : List Char → Bool
  | [] => needle.isPrefixOf []
  | hay@(_ :: rest) => needle.isPrefixOf hay || containsSub needle rest

/-- Python `content_path.replace('/./', '/')`: one left-to-right pass,
non-overlapping occurrences (a match consumes its three characters and
scanning resumes after them). -/
def pyReplace : List Char → List Char
  | [] => []
  | [c] => [c]
  | [c, d] => [c, d]
  | c :: d :: e :: rest =>
    if c = '/' ∧ d = '.' ∧ e = '/' then '/' :: pyReplace rest
    else c :: pyReplace (d :: e :: rest)

/-- `content_path[1:]` applied when `content_path.startswith('/')`. -/
def stripSlash : List Char → List Char
  | '/' :: rest => rest
  | other => other

/-- Python negative indexing `l[-2]`, `none` when the list is too short
(Python raises `IndexError` there). -/
def pyIdxNeg2 {α : Type} (l : List α) : Option α :=
  match l.reverse with
  | _ :: v :: _ => some v
  | _ => none

/-- The token scan of `get_tag`: find the first token starting with `pat`
and return `token.split('"')[-2]`; `.error` models the uncaught
`IndexError` when that token contains no double quote. -/
def get_tagGo (pat : List Char) : List (List Char) → Except String (Option String)
  | [] => .ok none
  | i :: rest =>
    if pat.isPrefixOf i then
      match pyIdxNeg2 (pySplit '"' i) with
      | some v => .ok (some (String.mk v))
      | none => .error "IndexError"
    else get_tagGo pat rest

/-- `get_tag(content, tag)` from the source: scan `content.split(' ')` for the
first token starting with `tag + '='` and return the value between its last
two double quotes (`i.split('"')[-2]`); `.ok none` when no token matches. -/
def get_tag (content : String) (tag : String) : Except String (Option String) :=
  get_tagGo (tag.data ++ ['=']) (pySplit ' ' content.data)

/-- Python truthiness of an optional string (`if not office_prefix:`):
`None` and the empty string are falsy. -/
def pyTruthy : Option String → Bool
  | none => false
  | some s => s ≠ ""

/-- `get_content_zip_path(content_path)` from the source: replace `/./` by
`/` (one pass), strip one leading `/`, then append `content.xml`. -/
def get_content_zip_path (content_path : String) : String :=
  let l2 := stripSlash (pyReplace content_path.data)
  if l2 = [] then "content.xml" else String.mk l2 ++ "/content.xml"

/-- One line of logger output.  The scanner writes human-readable report
lines; we record only their identity and payload. -/
inductive LogMsg where
  | macroBanner
  | macroPath (p : String)
  | corrupted
  | flatMacroBanner
  | flatMacroList (l : List XML)
  | eventListener (indent : String) (attrib : List (String × String))
  | entering (indent : String) (path : String)
  | exiting (indent : String) (path : String)
deriving Repr

/-- The loop of `display_macro_od`: threads the `display_banner` flag through
the member names, logging the banner before the first reported path only. -/
def macroOdGo (displayBanner : Bool) : List String → Bool × List LogMsg
  | [] => (displayBanner, [])
  | f :: rest =>
    let basicHit := containsSub "Basic/".data f.data
    let b1 := displayBanner || basicHit
    let l1 : List LogMsg :=
      if basicHit then (if displayBanner then [] else [.macroBanner]) ++ [.macroPath f] else []
    let scriptsHit := containsSub "Scripts/".data f.data
    let b2 := b1 || scriptsHit
    let l2 : List LogMsg :=
      if scriptsHit then (if b1 then [] else [.macroBanner]) ++ [.macroPath f] else []
    let r := macroOdGo b2 rest
    (r.fst, l1 ++ l2 ++ r.snd)

/-- `display_macro_od(od_zipfile)` from the source: iterate the archive's
member names; any name containing `Basic/` or `Scripts/` as a substring is
reported; the banner is logged once before the first reported path.  Input is
the archive's `namelist()`. -/
def display_macro_od (names : List String) : Bool × List LogMsg :=
  macroOdGo false names

/-- `display_macro_flat(od_file)` from the source, on the file's raw text and
the outcome of `ET.fromstring` (`none` models a `ParseError`, which the code
catches).  When `get_tag` finds no `xmlns:ooo` declaration it returns `None`
and the code evaluates `'\x7b' + None`, an uncaught `TypeError`. -/
def display_macro_flat (raw : String) (parse : Option XML) : List LogMsg × Except String Bool :=
  match parse with
  | none => ([.corrupted], .ok false)
  | some root =>
    match get_tag raw "xmlns:ooo" with
    | .error e => ([], .error e)
    | .ok none => ([], .error "TypeError")
    | .ok (some oooUri) =>
      let found := find_rec root ("\x7b" ++ oooUri ++ "\x7dlibrary-embedded") []
      if found.isEmpty then ([], .ok false)
      else ([.flatMacroBanner, .flatMacroList found], .ok true)

/-- `get_event_listeners(content, script_prefix, indent)` from the source:
log every `event-listener` element found by `find_rec`, with its attributes. -/
def get_event_listeners (content : XML) (scriptUri : String) (indent : String) : List LogMsg :=
  (find_rec content ("\x7b" ++ scriptUri ++ "\x7devent-listener") []).map
    (fun s => LogMsg.eventListener indent s.attrib)

/-- `get_ole_objects(content, draw_prefix)` from the source. -/
def get_ole_objects (content : XML) (drawUri : String) : List XML :=
  find_rec content ("\x7b" ++ drawUri ++ "\x7dobject") []

/-- `display_event_listener_flat(od_file)` from the source, on the file's raw
text and the outcome of parsing it (`none` models `ET.ParseError`). -/
def display_event_listener_flat (od_file raw : String) (parse : Option XML)
    (indent : String) : List LogMsg × Except String Bool :=
  let ent : List LogMsg := [.entering indent od_file]
  match parse with
  | none => (ent ++ [.corrupted], .ok false)
  | some root =>
    match get_tag raw "xmlns:office" with
    | .error e => (ent, .error e)
    | .ok office =>
      match get_tag raw "xmlns:script" with
      | .error e => (ent, .error e)
      | .ok script =>
        if pyTruthy office = false then
          (ent ++ [.exiting indent od_file], .ok false)
        else
          let evLogs : List LogMsg :=
            match script with
            | some s => if s ≠ "" then get_event_listeners root s (indent ++ "  ") else []
            | none => []
          (ent ++ evLogs ++ [.exiting indent od_file], .ok true)

/-- One member of a zip archive: its raw bytes (as text) and the outcome of
parsing it as XML (`none` models `ET.ParseError`). -/
structure Member where
  raw : String
  parse : Option XML

/-- A zip archive: member names with their data, in namelist order. -/
abbrev Zip := List (String × Member)

/-- `od_zipfile.open(name)`: the member with the given name, `none` when the
archive has no such member (Python raises `KeyError` there). -/
def zipOpen (z : Zip) (q : String) : Option Member :=
  (z.find? (fun m => m.fst == q)).map (fun m => m.snd)

/-- The length of the longest member name of an archive. -/
def maxNameLen (z : Zip) : Nat :=
  z.foldr (fun m acc => max m.fst.length acc) 0

/-- The loop `for ole_object in get_ole_objects(...)` of
`display_event_listener_od`: read the `xlink`-qualified `href` attribute
(uncaught `KeyError` when absent) and recurse via `recur` on the accumulated
content path; a raised error aborts the loop. -/
def devList (recur : String → String → List LogMsg × Except String Bool)
    (xlinkUri content_path indent : String) : List XML → List LogMsg × Except String Unit
  | [] => ([], .ok ())
  | ole :: rest =>
    match lookupAttr ole ("\x7b" ++ xlinkUri ++ "\x7dhref") with
    | none => ([], .error "KeyError: no such attribute")
    | some draw_href =>
      match recur (content_path ++ "/" ++ draw_href) (indent ++ "  ") with
      | (lg, .error e) => (lg, .error e)
      | (lg, .ok _) =>
        match devList recur xlinkUri content_path indent rest with
        | (lg2, r2) => (lg ++ lg2, r2)

/-- The body of `display_event_listener_od(od_zipfile, content_path, indent)`
from the source, parameterised by the recursive call `recur`. -/
def devBody (recur : String → String → List LogMsg × Except String Bool)
    (z : Zip) (content_path indent : String) : List LogMsg × Except String Bool :=
  let czp := get_content_zip_path content_path
  let ent : List LogMsg := [.entering indent czp]
  match zipOpen z czp with
  | none => (ent, .error "KeyError: no such zip member")
  | some mem =>
    match mem.parse with
    | none => (ent ++ [.corrupted], .ok false)
    | some root =>
      match get_tag mem.raw "xmlns:office" with
      | .error e => (ent, .error e)
      | .ok office =>
        match get_tag mem.raw "xmlns:script" with
        | .error e => (ent, .error e)
        | .ok script =>
          match get_tag mem.raw "xmlns:draw" with
          | .error e => (ent, .error e)
          | .ok draw =>
            match get_tag mem.raw "xmlns:xlink" with
            | .error e => (ent, .error e)
            | .ok xlink =>
              if pyTruthy office = false then
                (ent ++ [.exiting indent czp], .ok false)
              else
                let evLogs : List LogMsg :=
                  match script with
                  | some s => if s ≠ "" then get_event_listeners root s (indent ++ "  ") else []
                  | none => []
                let noOle : List LogMsg × Except String Bool :=
                  (ent ++ evLogs ++ [.exiting indent czp], .ok true)
                match draw, xlink with
                | some drawUri, some xlinkUri =>
                  if drawUri ≠ "" ∧ xlinkUri ≠ "" then
                    match devList recur xlinkUri content_path indent (get_ole_objects root drawUri) with
                    | (lg, .error e) => (ent ++ evLogs ++ lg, .error e)
                    | (lg, .ok _) => (ent ++ evLogs ++ lg ++ [.exiting indent czp], .ok true)
                  else noOle
                | _, _ => noOle

/-- `display_event_listener_od` from the source, made total with a fuel
parameter: fuel `0` returns the distinguished outcome `.error "fuel
exhausted"`; at fuel `f + 1` the body runs with recursive calls at fuel `f`.
The unfuelled Python recursion diverges exactly when every fuel exhausts. -/
def display_event_listener_od (fuel : Nat) (z : Zip) (content_path indent : String) :
    List LogMsg × Except String Bool :=
  match fuel with
  | 0 => ([], .error "fuel exhausted")
  | f + 1 => devBody (fun p i => display_event_listener_od f z p i) z content_path indent

/-- The flat-document branch of `main`: run the macro detector, then (only if
macros were found) the event-listener inspector, and exit with status 0;
an uncaught exception is propagated as `.error`. -/
def mainFlat (od_path raw : String) (parse : Option XML) : Except String Nat :=
  match (display_macro_flat raw parse).snd with
  | .error e => .error e
  | .ok isMacro =>
    if isMacro then
      match (display_event_listener_flat od_path raw parse "").snd with
      | .error e => .error e
      | .ok _ => .ok 0
    else .ok 0

/-! ### Specification-side definitions

These follow the wording of the specification (not the code); they exist to
compare the spec's description with the embedded source functions. -/

/-- From the spec's words: split a text into whitespace-separated tokens
(Python's no-argument `str.split()`: any whitespace separates, empty tokens
dropped).  `cur` is the current token accumulated in reverse. -/
def wsSplitGo (cur : List Char) : List Char → List (List Char)
  | [] => if cur.isEmpty then [] else [cur.reverse]
  | c :: rest =>
    if c.isWhitespace then
      if cur.isEmpty then wsSplitGo [] rest else cur.reverse :: wsSplitGo [] rest
    else wsSplitGo (c :: cur) rest

/-- The whitespace-separated tokens of a text (spec-side notion). -/
def wsSplit (l : List Char) : List (List Char) := wsSplitGo [] l

/-- A member name qualifies for the zip macro detector: it contains
`Basic/` or `Scripts/` as a substring (the code's actual criterion). -/
def macroHit (name : String) : Bool :=
  containsSub "Basic/".data name.data || containsSub "Scripts/".data name.data

/-- The paths the zip macro detector reports, in order: each member name once
per marker (`Basic/` first, then `Scripts/`) that occurs in it. -/
def macroReports (names : List String) : List LogMsg :=
  names.flatMap (fun n =>
    (if containsSub "Basic/".data n.data then [LogMsg.macroPath n] else []) ++
    (if containsSub "Scripts/".data n.data then [LogMsg.macroPath n] else []))

/-! ### Concrete documents and archives used as test inputs -/

/-- A node with a matching direct child (tag `t`) and a matching grandchild. -/
def c1Node : XML :=
  .elem "r" [] [.elem "t" [] [], .elem "c" [] [.elem "t" [] []]]

/-- Raw content declaring the `office`, `draw` and `xlink` namespaces (with
URIs `o`, `d`, `x`) and no `script` namespace. -/
def cycleRaw : String := "<r xmlns:office=\"o\" xmlns:draw=\"d\" xmlns:xlink=\"x\">"

/-- Content tree with one `draw`-namespace `object` whose `xlink`-namespace
`href` is `.` (a self-reference, resolving back into the archive). -/
def cycleRootA : XML :=
  .elem "root" [] [.elem "body" [] [.elem "\x7bd\x7dobject" [("\x7bx\x7dhref", ".")] []]]

/-- Content tree with one `draw`-namespace `object` whose `xlink`-namespace
`href` is the empty string. -/
def cycleRootB : XML :=
  .elem "root" [] [.elem "body" [] [.elem "\x7bd\x7dobject" [("\x7bx\x7dhref", "")] []]]

/-- An archive whose OLE-object reference graph is a two-member cycle:
`content.xml` references `./content.xml` (via href `.`), and
`./content.xml` references `content.xml` back (via the empty href, since
`get_content_zip_path("/./" ) = "content.xml"`). -/
def cycleArchive : Zip :=
  [("content.xml", ⟨cycleRaw, some cycleRootA⟩),
   ("./content.xml", ⟨cycleRaw, some cycleRootB⟩)]

/-- Content tree with one matched `draw`-namespace `object` element carrying
no attributes at all — in particular no `xlink`-namespace `href`. -/
def hrefLessRoot : XML :=
  .elem "root" [] [.elem "body" [] [.elem "\x7bd\x7dobject" [] []]]

/-- An archive whose only content stream contains a `draw:object` without an
`xlink:href` attribute. -/
def hrefLessArchive : Zip := [("content.xml", ⟨cycleRaw, some hrefLessRoot⟩)]

/-- An archive whose content stream is well-formed but declares no
namespaces at all. -/
def noOfficeArchive : Zip := [("content.xml", ⟨"<a></a>", some (.elem "a" [] [])⟩)]

/-- An archive whose content stream does not parse as XML. -/
def corruptArchive : Zip := [("content.xml", ⟨"<bad", none⟩)]

/-! ### Lemmas about `find_rec` -/

mutual

/-- `find_rec` only ever appends to the accumulator. -/
theorem find_rec_append (x : XML) (el : String) (res : List XML) :
    find_rec x el res = res ++ find_rec x el [] := by
  cases x with
  | elem t a cs =>
    simp only [find_rec]
    exact find_rec_list_append cs el res

/-- `find_rec_list` only ever appends to the accumulator. -/
theorem find_rec_list_append (l : List XML) (el : String) (res : List XML) :
    find_rec_list l el res = res ++ find_rec_list l el [] := by
  cases l with
  | nil => simp [find_rec_list]
  | cons item rest =>
    simp only [find_rec_list]
    rw [find_rec_list_append rest el (find_rec item el (res ++ findall item el)),
      find_rec_append item el (res ++ findall item el),
      find_rec_list_append rest el (find_rec item el ([] ++ findall item el)),
      find_rec_append item el ([] ++ findall item el)]
    simp [List.append_assoc]

end

/-- Matches among a sibling list interleaved with the matches strictly below
them are a permutation of the matches in the whole forest. -/
theorem interleave_perm (p : XML → Bool) (l : List XML) :
    (l.filter p ++ (deepOfList l).filter p).Perm ((descendantsList l).filter p) := by
  induction l with
  | nil => simp [deepOfList, descendantsList]
  | cons c rest ih =>
    have key : (rest.filter p ++ ((descendants c).filter p ++ (deepOfList rest).filter p)).Perm
        ((descendants c).filter p ++ (descendantsList rest).filter p) :=
      (List.perm_append_comm_assoc _ _ _).trans (List.Perm.append_left _ ih)
    by_cases hp : p c = true
    · simp only [descendantsList, deepOfList, List.flatMap_cons, List.filter_cons,
        List.filter_append, hp, if_true, List.cons_append]
      exact List.Perm.cons c (by simpa [deepOfList] using key)
    · simp only [descendantsList, deepOfList, List.flatMap_cons, List.filter_cons,
        List.filter_append, hp, if_false]
      simpa [deepOfList] using key

mutual

/-- What `find_rec` collects from an empty accumulator is a permutation of
the matching descendants at depth ≥ 2. -/
theorem find_rec_perm (x : XML) (el : String) :
    (find_rec x el []).Perm ((deepDescendants x).filter (fun d => d.tag == el)) := by
  cases x with
  | elem t a cs =>
    simp only [find_rec, deepDescendants, XML.children]
    exact find_rec_list_perm cs el

/-- List version of `find_rec_perm`. -/
theorem find_rec_list_perm (l : List XML) (el : String) :
    (find_rec_list l el []).Perm ((deepOfList l).filter (fun d => d.tag == el)) := by
  cases l with
  | nil => simp [find_rec_list, deepOfList]
  | cons item rest =>
    simp only [find_rec_list]
    rw [find_rec_list_append rest el (find_rec item el ([] ++ findall item el)),
      find_rec_append item el ([] ++ findall item el)]
    simp only [List.nil_append]
    have h1 : (findall item el ++ find_rec item el []).Perm
        ((descendants item).filter (fun d => d.tag == el)) := by
      have hd : descendants item = descendantsList item.children := by
        cases item; simp [descendants, XML.children]
      rw [hd]
      refine List.Perm.trans ?_ (interleave_perm (fun d => d.tag == el) item.children)
      refine List.Perm.append ?_ ?_
      · simp [findall]
      · have := find_rec_perm item el
        simpa [deepDescendants] using this
    have h2 := List.Perm.append h1 (find_rec_list_perm rest el)
    refine List.Perm.trans ?_ (List.Perm.trans h2 ?_)
    · simp [List.append_assoc]
    · simp [deepOfList, List.filter_append]

end

/-! ### Claim C1 -/

/-- C1 (amended): `find_rec` appends its findings to the accumulator, and
what it appends is exactly (a permutation of) the matching descendants of
the node at depth ≥ 2 — children of children and deeper.  Direct children of
the node are never collected, and the output interleaves depths rather than
following document order; when nothing at depth ≥ 2 matches, the accumulator
is returned unchanged. -/
theorem C1_find_rec_characterization (node : XML) (el : String) (res : List XML) :
    find_rec node el res = res ++ find_rec node el [] ∧
    (find_rec node el []).Perm ((deepDescendants node).filter (fun d => d.tag == el)) :=
  ⟨find_rec_append node el res, find_rec_perm node el⟩

/-- C1 counterexample: on a node with a matching direct child (and a matching
grandchild), `find_rec` does not return the matching descendants in document
order as the claim states — the direct child is missing entirely
(`find_rec` returns one element where the claim demands two). -/
theorem C1_counterexample :
    find_rec c1Node "t" [] ≠ (descendants c1Node).filter (fun d => d.tag == "t") := by
  intro h
  have h1 : find_rec c1Node "t" [] = [XML.elem "t" [] []] := rfl
  have h2 : (descendants c1Node).filter (fun d => d.tag == "t") =
      [XML.elem "t" [] [], XML.elem "t" [] []] := rfl
  rw [h1, h2] at h
  exact absurd (congrArg List.length h) (by decide)

/-! ### Fuel lemmas for the zip event-listener inspector -/

/-- `devList` is insensitive to changing the recursion function, provided
the two functions agree wherever the first one did not exhaust its fuel and
the loop as a whole did not exhaust fuel. -/
theorem devList_fuel_congr
    (recur₁ recur₂ : String → String → List LogMsg × Except String Bool)
    (x p i : String) (oles : List XML)
    (hrec : ∀ q j, (recur₁ q j).snd ≠ .error "fuel exhausted" → recur₂ q j = recur₁ q j)
    (h : (devList recur₁ x p i oles).snd ≠ .error "fuel exhausted") :
    devList recur₂ x p i oles = devList recur₁ x p i oles := by
  induction oles with
  | nil => rfl
  | cons ole rest ih =>
    simp only [devList] at h ⊢
    cases hl : lookupAttr ole ("\x7b" ++ x ++ "\x7dhref") with
    | none => simp only [hl]
    | some href =>
      simp only [hl] at h ⊢
      cases hr : recur₁ (p ++ "/" ++ href) (i ++ "  ") with
      | mk lg e =>
        cases e with
        | error err =>
          have h1 : (recur₁ (p ++ "/" ++ href) (i ++ "  ")).snd ≠ .error "fuel exhausted" := by
            rw [hr]
            simp only [hr] at h
            simpa using h
          rw [hrec _ _ h1, hr]
        | ok u =>
          have h1 : (recur₁ (p ++ "/" ++ href) (i ++ "  ")).snd ≠ .error "fuel exhausted" := by
            rw [hr]; simp
          have h2 : (devList recur₁ x p i rest).snd ≠ .error "fuel exhausted" := by
            simp only [hr] at h
            cases hd : devList recur₁ x p i rest with
            | mk lg2 r2 =>
              simp only [hd] at h
              simpa using h
          rw [hrec _ _ h1, hr, ih h2]

/-- `devBody` is insensitive to changing the recursion function, provided
the two functions agree wherever the first one did not exhaust its fuel and
the body as a whole did not exhaust fuel. -/
theorem devBody_fuel_congr
    (recur₁ recur₂ : String → String → List LogMsg × Except String Bool)
    (z : Zip) (p i : String)
    (hrec : ∀ q j, (recur₁ q j).snd ≠ .error "fuel exhausted" → recur₂ q j = recur₁ q j)
    (h : (devBody recur₁ z p i).snd ≠ .error "fuel exhausted") :
    devBody recur₂ z p i = devBody recur₁ z p i := by
  simp only [devBody] at h ⊢
  cases hz : zipOpen z (get_content_zip_path p) with
  | none => simp only [hz]
  | some mem =>
    simp only [hz] at h ⊢
    cases hp : mem.parse with
    | none => simp only [hp]
    | some root =>
      simp only [hp] at h ⊢
      cases ho : get_tag mem.raw "xmlns:office" with
      | error e => simp only [ho]
      | ok office =>
        simp only [ho] at h ⊢
        cases hs : get_tag mem.raw "xmlns:script" with
        | error e => simp only [hs]
        | ok script =>
          simp only [hs] at h ⊢
          cases hd : get_tag mem.raw "xmlns:draw" with
          | error e => simp only [hd]
          | ok draw =>
            simp only [hd] at h ⊢
            cases hx : get_tag mem.raw "xmlns:xlink" with
            | error e => simp only [hx]
            | ok xlink =>
              simp only [hx] at h ⊢
              by_cases hoff : pyTruthy office = false
              · simp only [hoff, if_true]
              · simp only [hoff, if_false] at h ⊢
                cases draw with
                | none => rfl
                | some drawUri =>
                  cases xlink with
                  | none => rfl
                  | some xlinkUri =>
                    by_cases hne : drawUri ≠ "" ∧ xlinkUri ≠ ""
                    · simp only [if_pos hne] at h ⊢
                      have hlist : (devList recur₁ xlinkUri p i
                          (get_ole_objects root drawUri)).snd ≠ .error "fuel exhausted" := by
                        cases hdl : devList recur₁ xlinkUri p i (get_ole_objects root drawUri) with
                        | mk lg r =>
                          cases r with
                          | error err =>
                            simp only [hdl] at h
                            simpa using h
                          | ok u => simp [hdl]
                      rw [devList_fuel_congr recur₁ recur₂ _ _ _ _ hrec hlist]
                    · simp only [if_neg hne]

/-- Once the inspector completes without exhausting its fuel, extra fuel
does not change its result. -/
theorem dev_od_fuel_mono (f n : Nat) : ∀ (z : Zip) (p i : String),
    (display_event_listener_od f z p i).snd ≠ .error "fuel exhausted" →
    display_event_listener_od (f + n) z p i = display_event_listener_od f z p i := by
  induction f with
  | zero =>
    intro z p i h
    simp [display_event_listener_od] at h
  | succ f ih =>
    intro z p i h
    have hfn : f + 1 + n = (f + n) + 1 := by omega
    rw [hfn]
    simp only [display_event_listener_od] at h ⊢
    exact devBody_fuel_congr _ _ z p i (fun q j hq => ih z q j hq) h

/-- `get_tagGo` only ever raises `IndexError`. -/
theorem get_tagGo_no_fuel (pat : List Char) (toks : List (List Char)) (e : String)
    (h : get_tagGo pat toks = .error e) : e = "IndexError" := by
  induction toks with
  | nil => simp [get_tagGo] at h
  | cons i rest ih =>
    simp only [get_tagGo] at h
    by_cases hp : pat.isPrefixOf i = true
    · simp only [hp, if_true] at h
      cases hq : pyIdxNeg2 (pySplit '"' i) with
      | some v => simp [hq] at h
      | none =>
        simp only [hq] at h
        exact (Except.error.injEq _ _).mp h.symm
    · simp only [hp, if_false] at h
      exact ih h

/-- `get_tag` only ever raises `IndexError`. -/
theorem get_tag_no_fuel (c t e : String) (h : get_tag c t = .error e) : e = "IndexError" :=
  get_tagGo_no_fuel _ _ _ h

/-- A scan of `pyReplace` shortens its input by at most a factor of three. -/
theorem pyReplace_length (l : List Char) : l.length ≤ 3 * (pyReplace l).length := by
  induction l using pyReplace.induct with
  | case1 => simp [pyReplace]
  | case2 c => simp [pyReplace]
  | case3 c d => simp [pyReplace]
  | case4 c d e rest hcond ih =>
    simp only [pyReplace, if_pos hcond]
    simp only [List.length_cons]
    omega
  | case5 c d e rest hcond ih =>
    simp only [pyReplace, if_neg hcond]
    simp only [List.length_cons] at ih ⊢
    omega

/-- Stripping a leading slash removes at most one character. -/
theorem stripSlash_length (l : List Char) : l.length ≤ (stripSlash l).length + 1 := by
  unfold stripSlash
  split
  · simp
  · omega

/-- The resolved archive member name is at least a third as long as the
directory reference. -/
theorem gczp_length (p : String) : p.length ≤ 3 * (get_content_zip_path p).length + 3 := by
  have h1 := pyReplace_length p.data
  have h2 := stripSlash_length (pyReplace p.data)
  have hplen : p.length = p.data.length := rfl
  by_cases he : stripSlash (pyReplace p.data) = []
  · have hg : get_content_zip_path p = "content.xml" := by
      simp [get_content_zip_path, he]
    rw [hg, hplen]
    have h11 : ("content.xml" : String).length = 11 := rfl
    rw [h11]
    rw [he] at h2
    simp only [List.length_nil] at h2
    omega
  · have hg : get_content_zip_path p =
        String.mk (stripSlash (pyReplace p.data)) ++ "/content.xml" := by
      simp [get_content_zip_path, he]
    rw [hg, hplen]
    have hlen2 : (String.mk (stripSlash (pyReplace p.data)) ++ "/content.xml").length =
        (stripSlash (pyReplace p.data)).length + 12 := by
      rw [String.length_append]
      rfl
    rw [hlen2]
    omega

/-- A name longer than every member name is not in the archive. -/
theorem zipOpen_length (z : Zip) (q : String) (h : maxNameLen z < q.length) :
    zipOpen z q = none := by
  induction z with
  | nil => rfl
  | cons m rest ih =>
    have hmax : maxNameLen (m :: rest) = max m.fst.length (maxNameLen rest) := rfl
    rw [hmax] at h
    by_cases hq : m.fst == q
    · have : m.fst = q := by simpa using hq
      subst this
      omega
    · have hfind : (m :: rest).find? (fun mm => mm.fst == q) =
          rest.find? (fun mm => mm.fst == q) := by
        rw [List.find?_cons_of_neg]
        simpa using hq
      simp only [zipOpen, hfind]
      have := ih (by omega)
      simpa [zipOpen] using this

/-- `devList` cannot exhaust fuel if the recursion it invokes never does. -/
theorem devList_no_fuel (recur : String → String → List LogMsg × Except String Bool)
    (x p i : String) (oles : List XML)
    (hrec : ∀ href j, (recur (p ++ "/" ++ href) j).snd ≠ .error "fuel exhausted") :
    (devList recur x p i oles).snd ≠ .error "fuel exhausted" := by
  induction oles with
  | nil => simp [devList]
  | cons ole rest ih =>
    simp only [devList]
    cases hl : lookupAttr ole ("\x7b" ++ x ++ "\x7dhref") with
    | none => simp
    | some href =>
      simp only [hl]
      cases hr : recur (p ++ "/" ++ href) (i ++ "  ") with
      | mk lg e =>
        cases e with
        | error err =>
          have := hrec href (i ++ "  ")
          rw [hr] at this
          simpa using this
        | ok u =>
          cases hd : devList recur x p i rest with
          | mk lg2 r2 =>
            simp only [hd]
            rw [hd] at ih
            simpa using ih

/-- `devBody` cannot exhaust fuel if the recursion it invokes never does. -/
theorem devBody_no_fuel (recur : String → String → List LogMsg × Except String Bool)
    (z : Zip) (p i : String)
    (hrec : ∀ href j, (recur (p ++ "/" ++ href) j).snd ≠ .error "fuel exhausted") :
    (devBody recur z p i).snd ≠ .error "fuel exhausted" := by
  simp only [devBody]
  cases hz : zipOpen z (get_content_zip_path p) with
  | none => simp
  | some mem =>
    simp only [hz]
    cases hp : mem.parse with
    | none => simp [hp]
    | some root =>
      simp only [hp]
      cases ho : get_tag mem.raw "xmlns:office" with
      | error e =>
        simp only [ho]
        have he := get_tag_no_fuel _ _ _ ho
        subst he
        simp
      | ok office =>
        simp only [ho]
        cases hs : get_tag mem.raw "xmlns:script" with
        | error e =>
          simp only [hs]
          have he := get_tag_no_fuel _ _ _ hs
          subst he
          simp
        | ok script =>
          simp only [hs]
          cases hd : get_tag mem.raw "xmlns:draw" with
          | error e =>
            simp only [hd]
            have he := get_tag_no_fuel _ _ _ hd
            subst he
            simp
          | ok draw =>
            simp only [hd]
            cases hx : get_tag mem.raw "xmlns:xlink" with
            | error e =>
              simp only [hx]
              have he := get_tag_no_fuel _ _ _ hx
              subst he
              simp
            | ok xlink =>
              simp only [hx]
              by_cases hoff : pyTruthy office = false
              · simp [hoff]
              · simp only [hoff, if_false]
                cases draw with
                | none => simp
                | some drawUri =>
                  cases xlink with
                  | none => simp
                  | some xlinkUri =>
                    by_cases hne : drawUri ≠ "" ∧ xlinkUri ≠ ""
                    · simp only [if_pos hne]
                      have hlist := devList_no_fuel recur xlinkUri p i
                        (get_ole_objects root drawUri) hrec
                      cases hdl : devList recur xlinkUri p i (get_ole_objects root drawUri) with
                      | mk lg r =>
                        rw [hdl] at hlist
                        cases r with
                        | error err => simpa using hlist
                        | ok u => simp
                    · simp [if_neg hne]

/-- With fuel exceeding `3 * maxNameLen z + 4` minus the length of the
current content path, the inspector never exhausts its fuel: every
recursive call lengthens the accumulated path, and once the path is long
enough the resolved member name is longer than every member of the archive,
so the recursion stops (with a `KeyError`). -/
theorem dev_od_no_fuel : ∀ (k : Nat) (z : Zip) (p i : String),
    3 * maxNameLen z + 4 ≤ p.length + k →
    (display_event_listener_od (k + 1) z p i).snd ≠ .error "fuel exhausted" := by
  intro k
  induction k with
  | zero =>
    intro z p i hb
    have hlen : maxNameLen z < (get_content_zip_path p).length := by
      have := gczp_length p
      omega
    have hz := zipOpen_length z _ hlen
    simp [display_event_listener_od, devBody, hz]
  | succ k ih =>
    intro z p i hb
    simp only [display_event_listener_od]
    refine devBody_no_fuel _ z p i (fun href j => ?_)
    refine ih z (p ++ "/" ++ href) j ?_
    have : (p ++ "/" ++ href).length = p.length + 1 + href.length := by
      rw [String.length_append, String.length_append]
      rfl
    omega

/-- For every archive and starting point there is a fuel bound at which the
inspector's run is complete (not fuel-exhausted) and stable under extra
fuel: the recursion always terminates. -/
theorem dev_od_terminates (z : Zip) (p i : String) :
    ∃ f, (display_event_listener_od f z p i).snd ≠ .error "fuel exhausted" ∧
      ∀ n, display_event_listener_od (f + n) z p i = display_event_listener_od f z p i := by
  refine ⟨3 * maxNameLen z + 4 + 1, ?_, ?_⟩
  · exact dev_od_no_fuel (3 * maxNameLen z + 4) z p i (by omega)
  · intro n
    exact dev_od_fuel_mono _ n z p i
      (dev_od_no_fuel (3 * maxNameLen z + 4) z p i (by omega))

/-! ### Claims C9 and C10 -/

/-- C9 (amended): the zip event-listener inspector terminates on every
archive — cyclic reference graphs included — because each recursive call
strictly lengthens the accumulated content path and the resolved member name
eventually exceeds every member name of the finite archive, producing an
unhandled `KeyError` instead of unbounded recursion.  The code indeed has no
visited-set guard, but that does not make the recursion infinite.  In
particular, the run on the two-member cyclic archive is stable for every
fuel of at least 4. -/
theorem C9_od_recursion_terminates :
    (∀ (z : Zip) (p i : String), ∃ f,
        (display_event_listener_od f z p i).snd ≠ .error "fuel exhausted" ∧
        ∀ n, display_event_listener_od (f + n) z p i = display_event_listener_od f z p i) ∧
    (∀ n, display_event_listener_od (4 + n) cycleArchive "" "" =
        display_event_listener_od 4 cycleArchive "" "") := by
  constructor
  · exact fun z p i => dev_od_terminates z p i
  · intro n
    have h4 : (display_event_listener_od 4 cycleArchive "" "").snd =
        .error "KeyError: no such zip member" := rfl
    exact dev_od_fuel_mono 4 n cycleArchive "" "" (by rw [h4]; simp)

/-- C9 counterexample: on the archive whose reference graph is the cycle
`content.xml → ./content.xml → content.xml`, the inspector terminates (the
claim says it does not): with fuel 4 it has already aborted with the
unhandled `KeyError` for the unresolvable member `/./content.xml`, and a
much larger fuel gives the same completed outcome rather than exhaustion. -/
theorem C9_counterexample :
    (display_event_listener_od 4 cycleArchive "" "").snd =
      .error "KeyError: no such zip member" ∧
    (display_event_listener_od 1000 cycleArchive "" "").snd =
      .error "KeyError: no such zip member" :=
  ⟨rfl, rfl⟩

/-- C10: on an archive whose content stream declares the `office`, `draw`
and `xlink` namespaces and contains a matched `draw`-namespace `object`
element without an `xlink`-namespace `href` attribute, the zip
event-listener inspector aborts with an unhandled `KeyError` from the
unguarded attribute lookup instead of skipping the object. -/
theorem C10_missing_href_keyerror :
    get_tag cycleRaw "xmlns:office" = .ok (some "o") ∧
    get_tag cycleRaw "xmlns:draw" = .ok (some "d") ∧
    get_tag cycleRaw "xmlns:xlink" = .ok (some "x") ∧
    lookupAttr (XML.elem "\x7bd\x7dobject" [] []) "\x7bx\x7dhref" = none ∧
    (display_event_listener_od 1 hrefLessArchive "" "").snd =
      .error "KeyError: no such attribute" :=
  ⟨rfl, rfl, rfl, rfl, rfl⟩

/-! ### Claims C2, C7 and C8 -/

/-- C2: the claim says that on a well-formed flat document with no
`xmlns:ooo` declaration the flat macro detector performs no search and
returns false; the code instead evaluates `'\x7b' + None` and aborts with an
unhandled `TypeError`.  This theorem evaluates the code on that input class
and at the concrete failing input `<a></a>`. -/
theorem C2_missing_ooo_typeerror :
    (∀ (raw : String) (root : XML), get_tag raw "xmlns:ooo" = .ok none →
      display_macro_flat raw (some root) = ([], .error "TypeError")) ∧
    display_macro_flat "<a></a>" (some (XML.elem "a" [] [])) = ([], .error "TypeError") := by
  constructor
  · intro raw root h
    simp [display_macro_flat, h]
  · rfl

/-- C2 witness: the failing input `<a></a>` is well-formed, yields no
`xmlns:ooo` declaration, and makes `display_macro_flat` raise. -/
theorem C2_witness :
    get_tag "<a></a>" "xmlns:ooo" = .ok none ∧
    display_macro_flat "<a></a>" (some (XML.elem "a" [] [])) = ([], .error "TypeError") :=
  ⟨rfl, C2_missing_ooo_typeerror.1 "<a></a>" (XML.elem "a" [] []) rfl⟩

/-- C7: a content stream whose bytes are not well-formed XML is reported
as corrupted by each inspecting function, which returns false instead of
raising, and the flat top-level run still exits with status 0. -/
theorem C7_malformed_xml_nonfatal :
    (∀ raw : String, display_macro_flat raw none = ([.corrupted], .ok false)) ∧
    (∀ od_file raw indent : String,
      display_event_listener_flat od_file raw none indent =
        ([.entering indent od_file, .corrupted], .ok false)) ∧
    (∀ (f : Nat) (z : Zip) (p i : String) (mem : Member),
      zipOpen z (get_content_zip_path p) = some mem → mem.parse = none →
      display_event_listener_od (f + 1) z p i =
        ([.entering i (get_content_zip_path p), .corrupted], .ok false)) ∧
    (∀ od_path raw : String, mainFlat od_path raw none = .ok 0) := by
  refine ⟨fun raw => rfl, fun od_file raw indent => rfl, ?_, fun od_path raw => rfl⟩
  intro f z p i mem hz hp
  simp [display_event_listener_od, devBody, hz, hp]

/-- C7 witness: on the archive whose `content.xml` does not parse, the zip
inspector reports corruption and returns false. -/
theorem C7_witness :
    display_event_listener_od 1 corruptArchive "" "" =
      ([.entering "" "content.xml", .corrupted], .ok false) :=
  C7_malformed_xml_nonfatal.2.2.1 0 corruptArchive "" "" ⟨"<bad", none⟩ rfl rfl

/-- C8 (amended): when the raw text yields no `office` namespace declaration
and the remaining namespace lookups complete without raising, both
event-listener inspectors log only the entering and exiting lines, return
false and perform no search or recursion.  (The extra lookups-complete
hypotheses are needed: the `script`, `draw` and `xlink` lookups run before
the `office` guard and can raise `IndexError` on their own.) -/
theorem C8_no_office_returns_false :
    (∀ (od_file raw indent : String) (root : XML) (s : Option String),
      get_tag raw "xmlns:office" = .ok none →
      get_tag raw "xmlns:script" = .ok s →
      display_event_listener_flat od_file raw (some root) indent =
        ([.entering indent od_file, .exiting indent od_file], .ok false)) ∧
    (∀ (f : Nat) (z : Zip) (p i : String) (mem : Member) (root : XML)
      (s d x : Option String),
      zipOpen z (get_content_zip_path p) = some mem →
      mem.parse = some root →
      get_tag mem.raw "xmlns:office" = .ok none →
      get_tag mem.raw "xmlns:script" = .ok s →
      get_tag mem.raw "xmlns:draw" = .ok d →
      get_tag mem.raw "xmlns:xlink" = .ok x →
      display_event_listener_od (f + 1) z p i =
        ([.entering i (get_content_zip_path p), .exiting i (get_content_zip_path p)],
          .ok false)) := by
  constructor
  · intro od_file raw indent root s h1 h2
    simp [display_event_listener_flat, h1, h2, pyTruthy]
  · intro f z p i mem root s d x hz hp h1 h2 h3 h4
    simp [display_event_listener_od, devBody, hz, hp, h1, h2, h3, h4, pyTruthy]

/-- C8 witness: a well-formed stream declaring nothing at all takes the
no-`office` early exit in both variants. -/
theorem C8_witness :
    display_event_listener_flat "f" "<a></a>" (some (XML.elem "a" [] [])) "" =
      ([.entering "" "f", .exiting "" "f"], .ok false) ∧
    display_event_listener_od 1 noOfficeArchive "" "" =
      ([.entering "" "content.xml", .exiting "" "content.xml"], .ok false) :=
  ⟨C8_no_office_returns_false.1 "f" "<a></a>" "" (XML.elem "a" [] []) none rfl rfl,
   C8_no_office_returns_false.2 0 noOfficeArchive "" "" ⟨"<a></a>", some (XML.elem "a" [] [])⟩
     (XML.elem "a" [] []) none none none rfl rfl rfl rfl rfl rfl⟩

/-- C8 counterexample: the claim as stated is false — on the well-formed
text `<a>c xmlns:script=x d</a>`, which yields no `office` declaration, the
flat inspector raises an unhandled `IndexError` (from the `script` lookup,
performed before the `office` guard) instead of returning false. -/
theorem C8_counterexample :
    get_tag "<a>c xmlns:script=x d</a>" "xmlns:office" = .ok none ∧
    (display_event_listener_flat "f" "<a>c xmlns:script=x d</a>"
        (some (XML.elem "a" [] [])) "").snd = .error "IndexError" :=
  ⟨rfl, rfl⟩

/-! ### Claim C3 -/

/-- Once the banner has been printed, the detector loop just reports paths. -/
theorem macroOdGo_true (l : List String) : macroOdGo true l = (true, macroReports l) := by
  induction l with
  | nil => rfl
  | cons f rest ih =>
    simp [macroOdGo, macroReports, ih, List.flatMap_cons]

/-- Full characterization of the detector loop started with no banner. -/
theorem macroOdGo_false (l : List String) :
    macroOdGo false l =
      (l.any macroHit,
       if l.any macroHit = true then LogMsg.macroBanner :: macroReports l else []) := by
  induction l with
  | nil => rfl
  | cons f rest ih =>
    by_cases hb : containsSub "Basic/".data f.data = true
    · simp [macroOdGo, macroOdGo_true, macroReports, macroHit, hb, List.flatMap_cons]
    · by_cases hs : containsSub "Scripts/".data f.data = true
      · simp [macroOdGo, macroOdGo_true, macroReports, macroHit, hb, hs, List.flatMap_cons]
      · simp [macroOdGo, macroReports, macroHit, hb, hs, ih, List.flatMap_cons]

/-- C3 (amended): the zip macro detector returns true exactly when some
member name contains `Basic/` or `Scripts/` as a *substring* (not as a path
segment), and its output is the banner — once, before the first reported
path — followed by each qualifying path (a name containing both markers is
reported twice). -/
theorem C3_display_macro_od_characterization (names : List String) :
    display_macro_od names =
      (names.any macroHit,
       if names.any macroHit = true then LogMsg.macroBanner :: macroReports names else []) ∧
    ((display_macro_od names).fst = true ↔
      ∃ n ∈ names,
        (containsSub "Basic/".data n.data || containsSub "Scripts/".data n.data) = true) := by
  refine ⟨macroOdGo_false names, ?_⟩
  have hd : display_macro_od names = macroOdGo false names := rfl
  rw [hd, macroOdGo_false names]
  simp [macroHit, List.any_eq_true]

/-- C3 counterexample: the member name `MyBasic/x` has neither `Basic` nor
`Scripts` as a path segment, yet the detector reports the archive as
containing a macro, because `Basic/` occurs as a substring. -/
theorem C3_counterexample :
    (display_macro_od ["MyBasic/x"]).fst = true ∧
    (pySplit '/' "MyBasic/x".data).contains "Basic".data = false ∧
    (pySplit '/' "MyBasic/x".data).contains "Scripts".data = false :=
  ⟨rfl, rfl, rfl⟩

/-! ### Claim C4 -/

/-- `pySplit` never returns the empty list of fields. -/
theorem pySplit_ne_nil (c : Char) (l : List Char) : pySplit c l ≠ [] := by
  induction l with
  | nil => simp [pySplit]
  | cons x xs ih =>
    simp only [pySplit]
    by_cases hx : x = c
    · simp [hx]
    · simp only [hx, if_false]
      cases hps : pySplit c xs with
      | nil => simp
      | cons s rest => simp

/-- Splitting around an explicit separator concatenates the splits. -/
theorem pySplit_append_sep (c : Char) (xs ys : List Char) :
    pySplit c (xs ++ c :: ys) = pySplit c xs ++ pySplit c ys := by
  induction xs with
  | nil => simp [pySplit]
  | cons x xs ih =>
    by_cases hx : x = c
    · subst hx
      simp [pySplit, ih]
    · simp only [List.cons_append, pySplit, hx, if_false, List.append_eq]
      rw [ih]
      cases hps : pySplit c xs with
      | nil => exact absurd hps (pySplit_ne_nil c xs)
      | cons s rest => simp

/-- A field with no separator splits into itself. -/
theorem pySplit_no_sep (c : Char) (l : List Char) (h : ∀ a ∈ l, a ≠ c) :
    pySplit c l = [l] := by
  induction l with
  | nil => rfl
  | cons x xs ih =>
    have hx : x ≠ c := h x (by simp)
    have hxs : ∀ a ∈ xs, a ≠ c := fun a ha => h a (by simp [ha])
    simp [pySplit, hx, ih hxs]

/-- The token scan ignores non-matching leading tokens. -/
theorem get_tagGo_skip (pat : List Char) (pre toks : List (List Char))
    (h : ∀ t ∈ pre, pat.isPrefixOf t = false) :
    get_tagGo pat (pre ++ toks) = get_tagGo pat toks := by
  induction pre with
  | nil => rfl
  | cons t rest ih =>
    have ht := h t (by simp)
    simp only [List.cons_append, get_tagGo, ht, if_false]
    exact ih (fun s hs => h s (by simp [hs]))

/-- With no matching token at all, the scan reports `None`. -/
theorem get_tagGo_none (pat : List Char) (toks : List (List Char))
    (h : ∀ t ∈ toks, pat.isPrefixOf t = false) :
    get_tagGo pat toks = .ok none := by
  induction toks with
  | nil => rfl
  | cons t rest ih =>
    have ht := h t (by simp)
    simp only [get_tagGo, ht, if_false]
    exact ih (fun s hs => h s (by simp [hs]))

/-- C4 (amended): `get_tag` scans the *space*-separated tokens of the text
(splitting only on `' '`, not on general whitespace).  When no token starts
with `key=`, it returns `None`; when the first such token has the shape
`u"v"w` with `v` and `w` free of double quotes — i.e. its last pair of
double quotes delimits `v` — it returns exactly `v`, regardless of other
`xmlns:*` declarations among the earlier or later tokens. -/
theorem C4_get_tag_characterization (content key : String) :
    ((∀ t ∈ pySplit ' ' content.data, (key.data ++ ['=']).isPrefixOf t = false) →
      get_tag content key = .ok none) ∧
    (∀ (pre post : List (List Char)) (u v w : List Char),
      pySplit ' ' content.data = pre ++ (u ++ '"' :: (v ++ '"' :: w)) :: post →
      (∀ t ∈ pre, (key.data ++ ['=']).isPrefixOf t = false) →
      (key.data ++ ['=']).isPrefixOf (u ++ '"' :: (v ++ '"' :: w)) = true →
      (∀ a ∈ v, a ≠ '"') → (∀ a ∈ w, a ≠ '"') →
      get_tag content key = .ok (some (String.mk v))) := by
  constructor
  · intro h
    exact get_tagGo_none _ _ h
  · intro pre post u v w hsplit hpre htok hv hw
    show get_tagGo _ _ = _
    rw [hsplit, get_tagGo_skip _ _ _ hpre]
    simp only [get_tagGo, htok, if_true]
    have hquote : pySplit '"' (u ++ '"' :: (v ++ '"' :: w)) =
        pySplit '"' u ++ ([v] ++ [w]) := by
      rw [pySplit_append_sep, pySplit_append_sep, pySplit_no_sep _ v hv,
        pySplit_no_sep _ w hw]
    rw [hquote]
    simp [pyIdxNeg2, List.reverse_append]

/-- C4 counterexample: the text `a\nxmlns:t="v"` has a whitespace-separated
token beginning with `xmlns:t=` (the claim therefore demands the value `v`),
but `get_tag` splits on the space character only, sees the single token
`a\nxmlns:t="v"`, and returns `None`. -/
theorem C4_counterexample :
    "xmlns:t=\"v\"".data ∈ wsSplit "a\nxmlns:t=\"v\"".data ∧
    ("xmlns:t=".data).isPrefixOf "xmlns:t=\"v\"".data = true ∧
    get_tag "a\nxmlns:t=\"v\"" "xmlns:t" = .ok none := by
  refine ⟨by decide, rfl, rfl⟩

/-- C4 witness: with an unrelated declaration before it and another token
after it, the `xmlns:t` declaration's quoted value is returned exactly. -/
theorem C4_witness :
    get_tag "xmlns:a=\"u\" xmlns:t=\"val\" z" "xmlns:t" = .ok (some "val") := by
  have h := (C4_get_tag_characterization "xmlns:a=\"u\" xmlns:t=\"val\" z" "xmlns:t").2
    ["xmlns:a=\"u\"".data] ["z".data] "xmlns:t=".data "val".data []
    (by decide) (by decide) (by decide) (by decide) (by decide)
  exact h

/-! ### Lemmas about `pyReplace` and `stripSlash` (claims C5, C6) -/

/-- One matching step of the scan. -/
theorem pyReplace_step_match (r : List Char) :
    pyReplace ('/' :: '.' :: '/' :: r) = '/' :: pyReplace r := by
  rw [pyReplace]
  simp

/-- One non-matching step of the scan. -/
theorem pyReplace_step_nomatch (c d e : Char) (r : List Char)
    (h : ¬(c = '/' ∧ d = '.' ∧ e = '/')) :
    pyReplace (c :: d :: e :: r) = c :: pyReplace (d :: e :: r) := by
  rw [pyReplace, if_neg h]

/-- The replacement pass preserves the first character. -/
theorem pyReplace_head (l : List Char) : (pyReplace l).head? = l.head? := by
  induction l using pyReplace.induct with
  | case1 => rfl
  | case2 c => rfl
  | case3 c d => rfl
  | case4 c d e rest hcond ih =>
    obtain ⟨hc, hd, he⟩ := hcond
    subst hc; subst hd; subst he
    simp [pyReplace]
  | case5 c d e rest hcond ih =>
    simp [pyReplace, hcond]

/-- The replacement pass returns the empty string only on the empty string. -/
theorem pyReplace_eq_nil (l : List Char) : pyReplace l = [] ↔ l = [] := by
  induction l using pyReplace.induct with
  | case1 => simp [pyReplace]
  | case2 c => simp [pyReplace]
  | case3 c d => simp [pyReplace]
  | case4 c d e rest hcond ih => simp [pyReplace, hcond]
  | case5 c d e rest hcond ih => simp [pyReplace, hcond]

/-- Only the one-character string `.` maps to `.`. -/
theorem pyReplace_eq_dot (l : List Char) (h : pyReplace l = ['.']) : l = ['.'] := by
  induction l using pyReplace.induct with
  | case1 => simp [pyReplace] at h
  | case2 c => simpa [pyReplace] using h
  | case3 c d => simp [pyReplace] at h
  | case4 c d e rest hcond ih =>
    obtain ⟨hc, hd, he⟩ := hcond
    subst hc; subst hd; subst he
    simp [pyReplace] at h
  | case5 c d e rest hcond ih =>
    simp only [pyReplace, if_neg hcond] at h
    have h2 := List.cons.injEq c (pyReplace (d :: e :: rest)) '.' []
    rw [h2] at h
    exact absurd ((pyReplace_eq_nil _).mp h.2) (by simp)

/-- If the output starts with `./`, so did the input. -/
theorem pyReplace_prefix_dotslash (l : List Char) (h : ['.', '/'] <+: pyReplace l) :
    ['.', '/'] <+: l := by
  induction l using pyReplace.induct with
  | case1 => simp [pyReplace] at h
  | case2 c => exact absurd h.length_le (by simp [pyReplace])
  | case3 c d => simpa [pyReplace] using h
  | case4 c d e rest hcond ih =>
    obtain ⟨hc, hd, he⟩ := hcond
    subst hc; subst hd; subst he
    rw [pyReplace_step_match] at h
    rw [List.cons_prefix_cons] at h
    exact absurd h.1 (by decide)
  | case5 c d e rest hcond ih =>
    rw [pyReplace_step_nomatch c d e rest hcond] at h
    rw [List.cons_prefix_cons] at h
    obtain ⟨hc, hrest⟩ := h
    subst hc
    obtain ⟨t, ht⟩ := hrest
    have hh : (pyReplace (d :: e :: rest)).head? = some '/' := by
      rw [← ht]; rfl
    rw [pyReplace_head] at hh
    have hd : d = '/' := by simpa using hh
    subst hd
    exact ⟨e :: rest, rfl⟩

/-- Without an occurrence of `/./`, the replacement pass is the identity. -/
theorem pyReplace_no_match (l : List Char) (h : ¬(['/', '.', '/'] <:+: l)) :
    pyReplace l = l := by
  induction l using pyReplace.induct with
  | case1 => rfl
  | case2 c => rfl
  | case3 c d => rfl
  | case4 c d e rest hcond ih =>
    obtain ⟨hc, hd, he⟩ := hcond
    subst hc; subst hd; subst he
    exact absurd (List.IsPrefix.isInfix ⟨rest, rfl⟩) h
  | case5 c d e rest hcond ih =>
    simp only [pyReplace, if_neg hcond]
    rw [ih (fun hc => h (List.infix_cons hc))]

/-- Prepending a slash commutes with the pass when no match forms at the
seam (the tail does not begin with `./`). -/
theorem pyReplace_cons_slash (l : List Char) (h : ¬(['.', '/'] <+: l)) :
    pyReplace ('/' :: l) = '/' :: pyReplace l := by
  match l with
  | [] => rfl
  | [d] => rfl
  | d :: e :: r =>
    have hcond : ¬('/' = '/' ∧ d = '.' ∧ e = '/') := by
      rintro ⟨-, hd, he⟩
      subst hd; subst he
      exact h ⟨r, rfl⟩
    rw [pyReplace_step_nomatch '/' d e r hcond]

/-- `stripSlash` leaves a string not starting with `/` unchanged. -/
theorem stripSlash_of_ne (l : List Char) (h : l.head? ≠ some '/') : stripSlash l = l := by
  unfold stripSlash
  split
  · simp at h
  · rfl

/-- Scanning `a ++ "/./" ++ b`, where `a` is clean (no `/./` inside, no
trailing `/.`), collapses the explicit junction occurrence and continues
in `b`. -/
theorem pyReplace_append_match (b : List Char) :
    ∀ a : List Char, ¬(['/', '.', '/'] <:+: a) → ¬(['/', '.'] <:+ a) →
      pyReplace (a ++ '/' :: '.' :: '/' :: b) = a ++ '/' :: pyReplace b := by
  intro a
  induction a with
  | nil =>
    intro h1 h2
    simpa using pyReplace_step_match b
  | cons c a' ih =>
    intro h1 h2
    have hinner : ¬(['/', '.', '/'] <:+: a') := fun hc => h1 (List.infix_cons hc)
    rcases a' with _ | ⟨d, a''⟩
    · have hcond : ¬(c = '/' ∧ '/' = '.' ∧ '.' = '/') := by
        rintro ⟨-, hd, -⟩
        exact absurd hd (by decide)
      show pyReplace (c :: ([] ++ '/' :: '.' :: '/' :: b)) = _
      simp only [List.nil_append, List.cons_append]
      rw [pyReplace_step_nomatch c '/' '.' ('/' :: b) hcond, pyReplace_step_match b]
    · rcases a'' with _ | ⟨e, a₃⟩
      · have hcond : ¬(c = '/' ∧ d = '.' ∧ '/' = '/') := by
          rintro ⟨hc, hd, -⟩
          subst hc; subst hd
          exact h2 (List.suffix_refl _)
        have hih := ih hinner (fun hc => absurd hc.length_le (by simp))
        simp only [List.singleton_append] at hih
        simp only [List.cons_append, List.nil_append]
        rw [pyReplace_step_nomatch c d '/' ('.' :: '/' :: b) hcond, hih]
      · have hcond : ¬(c = '/' ∧ d = '.' ∧ e = '/') := by
          rintro ⟨hc, hd, he⟩
          subst hc; subst hd; subst he
          exact h1 (List.IsPrefix.isInfix ⟨a₃, rfl⟩)
        have hsuffc : ¬(['/', '.'] <:+ (d :: e :: a₃)) :=
          fun hc => h2 (hc.trans (List.suffix_cons c (d :: e :: a₃)))
        have hih := ih hinner hsuffc
        simp only [List.cons_append] at hih
        simp only [List.cons_append]
        rw [pyReplace_step_nomatch c d e (a₃ ++ '/' :: '.' :: '/' :: b) hcond, hih]

/-- Scanning `a ++ "/" ++ b`, where `a` is clean and `b` does not begin
with `./`, never matches across the junction. -/
theorem pyReplace_append_slash (b : List Char) :
    ∀ a : List Char, ¬(['/', '.', '/'] <:+: a) → ¬(['/', '.'] <:+ a) →
      ¬(['.', '/'] <+: b) →
      pyReplace (a ++ '/' :: b) = a ++ '/' :: pyReplace b := by
  intro a
  induction a with
  | nil =>
    intro h1 h2 h3
    simpa using pyReplace_cons_slash b h3
  | cons c a' ih =>
    intro h1 h2 h3
    have hinner : ¬(['/', '.', '/'] <:+: a') := fun hc => h1 (List.infix_cons hc)
    rcases a' with _ | ⟨d, a''⟩
    · have hih := ih hinner (fun hc => absurd hc.length_le (by simp)) h3
      simp only [List.nil_append] at hih
      simp only [List.nil_append, List.cons_append]
      rcases b with _ | ⟨x, b'⟩
      · rfl
      · have hcond : ¬(c = '/' ∧ '/' = '.' ∧ x = '/') := by
          rintro ⟨-, hd, -⟩
          exact absurd hd (by decide)
        rw [pyReplace_step_nomatch c '/' x b' hcond, hih]
    · rcases a'' with _ | ⟨e, a₃⟩
      · have hcond : ¬(c = '/' ∧ d = '.' ∧ '/' = '/') := by
          rintro ⟨hc, hd, -⟩
          subst hc; subst hd
          exact h2 (List.suffix_refl _)
        have hih := ih hinner (fun hc => absurd hc.length_le (by simp)) h3
        simp only [List.singleton_append] at hih
        simp only [List.cons_append, List.nil_append]
        rw [pyReplace_step_nomatch c d '/' b hcond, hih]
      · have hcond : ¬(c = '/' ∧ d = '.' ∧ e = '/') := by
          rintro ⟨hc, hd, he⟩
          subst hc; subst hd; subst he
          exact h1 (List.IsPrefix.isInfix ⟨a₃, rfl⟩)
        have hsuffc : ¬(['/', '.'] <:+ (d :: e :: a₃)) :=
          fun hc => h2 (hc.trans (List.suffix_cons c (d :: e :: a₃)))
        have hih := ih hinner hsuffc h3
        simp only [List.cons_append] at hih
        simp only [List.cons_append]
        rw [pyReplace_step_nomatch c d e (a₃ ++ '/' :: b) hcond, hih]

/-- Inputs free of the overlapping pattern `/././` produce outputs free of
`/./`. -/
theorem pyReplace_no_infix (l : List Char)
    (h : ¬(['/', '.', '/', '.', '/'] <:+: l)) :
    ¬(['/', '.', '/'] <:+: pyReplace l) := by
  induction l using pyReplace.induct with
  | case1 => intro hc; exact absurd hc.length_le (by simp [pyReplace])
  | case2 c => intro hc; exact absurd hc.length_le (by simp [pyReplace])
  | case3 c d => intro hc; exact absurd hc.length_le (by simp [pyReplace])
  | case4 c d e rest hcond ih =>
    obtain ⟨hc, hd, he⟩ := hcond
    subst hc; subst hd; subst he
    rw [pyReplace_step_match]
    intro hin
    rcases List.infix_cons_iff.mp hin with hpre | hinf
    · rw [List.cons_prefix_cons] at hpre
      have h2 := pyReplace_prefix_dotslash rest hpre.2
      obtain ⟨t, ht⟩ := h2
      refine h (List.IsPrefix.isInfix ⟨t, ?_⟩)
      rw [← ht]
      rfl
    · have hrest : ¬(['/', '.', '/', '.', '/'] <:+: rest) :=
        fun hcc => h (List.infix_cons (List.infix_cons (List.infix_cons hcc)))
      exact ih hrest hinf
  | case5 c d e rest hcond ih =>
    rw [pyReplace_step_nomatch c d e rest hcond]
    intro hin
    rcases List.infix_cons_iff.mp hin with hpre | hinf
    · rw [List.cons_prefix_cons] at hpre
      obtain ⟨hc, hpre2⟩ := hpre
      subst hc
      have h2 := pyReplace_prefix_dotslash _ hpre2
      rw [List.cons_prefix_cons] at h2
      obtain ⟨hd, h3⟩ := h2
      obtain ⟨t, ht⟩ := h3
      have he : '/' = e := by
        have := congrArg List.head? ht
        simpa using this
      exact hcond ⟨rfl, hd.symm, he.symm⟩
    · have hrest : ¬(['/', '.', '/', '.', '/'] <:+: d :: e :: rest) :=
        fun hcc => h (List.infix_cons hcc)
      exact ih hrest hinf

/-- If the input does not end in `/.` then neither does the output. -/
theorem pyReplace_no_suffix (l : List Char) (h : ¬(['/', '.'] <:+ l)) :
    ¬(['/', '.'] <:+ pyReplace l) := by
  induction l using pyReplace.induct with
  | case1 => intro hc; exact absurd hc.length_le (by simp [pyReplace])
  | case2 c => intro hc; exact absurd hc.length_le (by simp [pyReplace])
  | case3 c d => exact fun hc => h hc
  | case4 c d e rest hcond ih =>
    obtain ⟨hc, hd, he⟩ := hcond
    subst hc; subst hd; subst he
    rw [pyReplace_step_match]
    intro hs
    rcases List.suffix_cons_iff.mp hs with heq | hsuf
    · have h1 : ['.'] = pyReplace rest :=
        ((List.cons.injEq '/' ['.'] '/' (pyReplace rest)).mp heq).2
      have h2 := pyReplace_eq_dot rest h1.symm
      subst h2
      exact h ⟨['/', '.'], rfl⟩
    · have hr : ¬(['/', '.'] <:+ rest) := fun hcc => h (hcc.trans ⟨['/', '.', '/'], rfl⟩)
      exact ih hr hsuf
  | case5 c d e rest hcond ih =>
    rw [pyReplace_step_nomatch c d e rest hcond]
    intro hs
    rcases List.suffix_cons_iff.mp hs with heq | hsuf
    · have h1 : ['.'] = pyReplace (d :: e :: rest) :=
        ((List.cons.injEq '/' ['.'] c (pyReplace (d :: e :: rest))).mp heq).2
      have h2 := pyReplace_eq_dot _ h1.symm
      simp at h2
    · have hr : ¬(['/', '.'] <:+ (d :: e :: rest)) :=
        fun hcc => h (hcc.trans (List.suffix_cons c _))
      exact ih hr hsuf

/-- An occurrence of `/./` in `u ++ v` lies in `u`, lies in `v`, or
straddles the seam in one of the two possible ways. -/
theorem infix_append_split (v : List Char) :
    ∀ u : List Char, ['/', '.', '/'] <:+: u ++ v →
      ['/', '.', '/'] <:+: u ∨ ['/', '.', '/'] <:+: v ∨
      (['/'] <:+ u ∧ ['.', '/'] <+: v) ∨ (['/', '.'] <:+ u ∧ ['/'] <+: v) := by
  intro u
  induction u with
  | nil =>
    intro h
    exact Or.inr (Or.inl (by simpa using h))
  | cons c u' ih =>
    intro h
    rcases List.infix_cons_iff.mp (by simpa [List.cons_append] using h) with hpre | hinf
    · rw [List.cons_prefix_cons] at hpre
      obtain ⟨hc, hpre2⟩ := hpre
      subst hc
      rcases u' with _ | ⟨d, u''⟩
      · refine Or.inr (Or.inr (Or.inl ⟨List.suffix_refl _, by simpa using hpre2⟩))
      · rcases u'' with _ | ⟨e, u₃⟩
        · rw [show ([d] ++ v : List Char) = d :: v from rfl, List.cons_prefix_cons] at hpre2
          obtain ⟨hd, h3⟩ := hpre2
          subst hd
          exact Or.inr (Or.inr (Or.inr ⟨List.suffix_refl _, h3⟩))
        · rw [show ((d :: e :: u₃ : List Char) ++ v) = d :: e :: (u₃ ++ v) from rfl,
            List.cons_prefix_cons] at hpre2
          obtain ⟨hd, h3⟩ := hpre2
          subst hd
          obtain ⟨t, ht⟩ := h3
          have he : '/' = e := by
            have := congrArg List.head? ht
            simpa using this
          subst he
          exact Or.inl (List.IsPrefix.isInfix ⟨u₃, rfl⟩)
    · rcases ih hinf with h1 | h1 | ⟨ha, hb⟩ | ⟨ha, hb⟩
      · exact Or.inl (List.infix_cons h1)
      · exact Or.inr (Or.inl h1)
      · exact Or.inr (Or.inr (Or.inl ⟨ha.trans (List.suffix_cons c u'), hb⟩))
      · exact Or.inr (Or.inr (Or.inr ⟨ha.trans (List.suffix_cons c u'), hb⟩))

/-! ### Claims C5 and C6 -/

/-- C5 (amended): the Archive Path Resolver satisfies: resolving `""` yields
`content.xml`; resolving `"/" ++ x` equals resolving `x` provided `x` starts
with neither `/` nor `./`; resolving `a ++ "/./" ++ b` equals resolving
`a ++ "/" ++ b` provided `a` contains no `/./` and does not end in `/.` and
`b` does not start with `./`; and resolving a non-empty normalized `p` (no
leading `/`, no `/./`) yields `p ++ "/content.xml"`.  The side conditions
are needed: the single-pass replace interacts with the added or removed
characters at the seams. -/
theorem C5_gczp_algebra :
    get_content_zip_path "" = "content.xml" ∧
    (∀ x : String, ¬(['/'] <+: x.data) → ¬(['.', '/'] <+: x.data) →
      get_content_zip_path ("/" ++ x) = get_content_zip_path x) ∧
    (∀ a b : String, ¬(['/', '.', '/'] <:+: a.data) → ¬(['/', '.'] <:+ a.data) →
      ¬(['.', '/'] <+: b.data) →
      get_content_zip_path (a ++ "/./" ++ b) = get_content_zip_path (a ++ "/" ++ b)) ∧
    (∀ p : String, p ≠ "" → ¬(['/'] <+: p.data) → ¬(['/', '.', '/'] <:+: p.data) →
      get_content_zip_path p = p ++ "/content.xml") := by
  refine ⟨rfl, ?_, ?_, ?_⟩
  · intro x h1 h2
    have hdata : ("/" ++ x).data = '/' :: x.data := by simp [String.data_append]
    have hhead : x.data.head? ≠ some '/' := by
      intro hh
      cases hx : x.data with
      | nil => rw [hx] at hh; simp at hh
      | cons c t =>
        rw [hx] at hh
        simp at hh
        exact h1 (by rw [hx, hh]; exact ⟨t, rfl⟩)
    simp only [get_content_zip_path, hdata]
    rw [pyReplace_cons_slash x.data h2]
    rw [show stripSlash ('/' :: pyReplace x.data) = pyReplace x.data from rfl]
    rw [stripSlash_of_ne (pyReplace x.data) (by rw [pyReplace_head]; exact hhead)]
  · intro a b h1 h2 h3
    have hd1 : (a ++ "/./" ++ b).data = a.data ++ '/' :: '.' :: '/' :: b.data := by
      simp [String.data_append]
    have hd2 : (a ++ "/" ++ b).data = a.data ++ '/' :: b.data := by
      simp [String.data_append]
    simp only [get_content_zip_path, hd1, hd2]
    rw [pyReplace_append_match b.data a.data h1 h2,
      pyReplace_append_slash b.data a.data h1 h2 h3]
  · intro p hne h1 h3
    have hhead : p.data.head? ≠ some '/' := by
      intro hh
      cases hx : p.data with
      | nil => rw [hx] at hh; simp at hh
      | cons c t =>
        rw [hx] at hh
        simp at hh
        exact h1 (by rw [hx, hh]; exact ⟨t, rfl⟩)
    have hdata_ne : p.data ≠ [] := by
      intro hc
      exact hne (String.ext (by rw [hc]))
    simp only [get_content_zip_path]
    rw [pyReplace_no_match p.data h3, stripSlash_of_ne p.data hhead, if_neg hdata_ne]

/-- C5 witness: the algebraic identities at concrete inputs satisfying the
side conditions. -/
theorem C5_witness :
    get_content_zip_path ("/" ++ "a") = get_content_zip_path "a" ∧
    get_content_zip_path ("x" ++ "/./" ++ "y") = get_content_zip_path ("x" ++ "/" ++ "y") ∧
    get_content_zip_path "a/b" = "a/b" ++ "/content.xml" :=
  ⟨C5_gczp_algebra.2.1 "a" (by decide) (by decide),
   C5_gczp_algebra.2.2.1 "x" "y" (by decide) (by decide) (by decide),
   C5_gczp_algebra.2.2.2 "a/b" (by decide) (by decide) (by decide)⟩

/-- C5 counterexample: the claim's unconditional identities fail — resolving
`"/" ++ "./a"` differs from resolving `"./a"` (the added slash completes a
`/./` match), and resolving `"x/." ++ "/./" ++ "y"` differs from resolving
`"x/." ++ "/" ++ "y"` (the occurrences overlap, so the single pass leaves a
residual `/./` on the left side only). -/
theorem C5_counterexample :
    get_content_zip_path ("/" ++ "./a") ≠ get_content_zip_path "./a" ∧
    get_content_zip_path ("x/." ++ "/./" ++ "y") ≠
      get_content_zip_path ("x/." ++ "/" ++ "y") := by
  exact ⟨by decide, by decide⟩

/-- C6 (amended): the resolver collapses `/./` segments in a single
left-to-right non-overlapping pass; for every directory reference that
contains no overlapping occurrence (no `/././` substring) and does not end
in `/.`, the returned member path contains no `/./`.  Overlapping
occurrences such as `a/././b` defeat the single pass. -/
theorem C6_gczp_no_dot_segment (p : String)
    (h5 : ¬(['/', '.', '/', '.', '/'] <:+: p.data))
    (hs : ¬(['/', '.'] <:+ p.data)) :
    ¬(['/', '.', '/'] <:+: (get_content_zip_path p).data) := by
  have hrep6 := pyReplace_no_infix p.data h5
  have hrep7 := pyReplace_no_suffix p.data hs
  have hsuf : stripSlash (pyReplace p.data) <:+ pyReplace p.data := by
    unfold stripSlash
    split
    · next rest heq => rw [heq]; exact List.suffix_cons '/' rest
    · exact List.suffix_refl _
  have hinf2 : ¬(['/', '.', '/'] <:+: stripSlash (pyReplace p.data)) :=
    fun hc => hrep6 (hc.trans hsuf.isInfix)
  have hsuf2 : ¬(['/', '.'] <:+ stripSlash (pyReplace p.data)) :=
    fun hc => hrep7 (hc.trans hsuf)
  by_cases he : stripSlash (pyReplace p.data) = []
  · have hg : get_content_zip_path p = "content.xml" := by
      simp [get_content_zip_path, he]
    rw [hg]
    decide
  · have hg : get_content_zip_path p =
        String.mk (stripSlash (pyReplace p.data)) ++ "/content.xml" := by
      simp [get_content_zip_path, he]
    rw [hg]
    have hdata : (String.mk (stripSlash (pyReplace p.data)) ++ "/content.xml").data =
        stripSlash (pyReplace p.data) ++ "/content.xml".data := by
      simp [String.data_append]
    rw [hdata]
    intro hin
    rcases infix_append_split "/content.xml".data _ hin with h1 | h1 | ⟨ha, hb⟩ | ⟨ha, hb⟩
    · exact hinf2 h1
    · revert h1; decide
    · revert hb; decide
    · exact hsuf2 ha

/-- C6 witness: a normalized reference with one `/./` resolves to a path
with no `/./`. -/
theorem C6_witness : ¬(['/', '.', '/'] <:+: (get_content_zip_path "a/./b").data) :=
  C6_gczp_no_dot_segment "a/./b" (by decide) (by decide)

/-- C6 counterexample: with overlapping occurrences, `a/././b` resolves to
`a/./b/content.xml`, which still contains a `/./` segment — the claim that
the returned path never does is false. -/
theorem C6_counterexample :
    get_content_zip_path "a/././b" = "a/./b/content.xml" ∧
    ['/', '.', '/'] <:+: (get_content_zip_path "a/././b").data :=
  ⟨rfl, by decide⟩

end ODSec
